import Mathlib

/-!
Shallow embedding of the simple_trader backtest engine and strategy layer.

Sources embedded:
* src/trader/backtest.py   (class Backtester: run, and BacktestResult fields)
* src/trader/strategies.py (calculate_rsi, calculate_sma, SMAStrategy.analyze,
  BreakoutStrategy.generate_signal, get_strategy)

Modelling conventions:
* pandas float values are modelled as ℚ; a pandas NaN cell is modelled as
  Option.none where the NaN matters (indicator warm-up, diff/shift/pct_change
  at index 0).  IEEE special cases are translated where the source relies on
  them: x/0 with x > 0 gives +inf (so RSI collapses to the boundary 100), and
  0/0 gives NaN (Option.none).
* the strategy plugged into the engine is abstracted to the one thing
  Backtester.run reads from it: the integer value of the returned signal
  (signal.signal.value ∈ {-1, 0, 1} for the concrete strategies; the engine
  itself works for any integer-valued function of the bar prefix).
* df['strategy_returns'] has NaN at row 0 (shift(1) and pct_change); cumprod,
  .sum() and dropna all skip that NaN, which is equivalent to treating the
  row-0 return as 0, as done here.
-/

/-- Bar: one OHLCV observation (timestamp omitted: the engine's arithmetic is
purely positional; timestamps are only formatted into the report strings). -/
structure Bar where
  open_ : ℚ
  high : ℚ
  low : ℚ
  close : ℚ
  volume : ℚ
  deriving Repr, DecidableEq

/-- Run: one Backtester configuration plus the fetched price series, as used by
Backtester.run.  leverage is the engine's stored multiplier self.leverage. -/
structure Run where
  strategy : List Bar → ℤ
  mode : String
  leverage : ℚ
  initialCapital : ℚ
  bars : List Bar

/-- Backtester.__init__: self.leverage = leverage if mode == "leveraged" else 1.0. -/
def effLeverage (mode : String) (leverage : ℚ) : ℚ :=
  if mode = "leveraged" then leverage else 1

/-- Close column of the fetched dataframe. -/
def Run.closes (R : Run) : List ℚ := R.bars.map Bar.close

/-- Long-only coercion applied right after the strategy call in Backtester.run:
if self.mode == "long_only" and sig_value == -1: sig_value = 0. -/
def coerceSignal (mode : String) (s : ℤ) : ℤ :=
  if mode = "long_only" ∧ s = -1 then 0 else s

/-- df['signal']: [0]*60 padding followed by one (possibly coerced) strategy
evaluation per bar i in range(60, len(df)), on the prefix df.iloc[:i+1]. -/
def signalsList (R : Run) : List ℤ :=
  List.replicate 60 0 ++
    (List.range (R.bars.length - 60)).map
      (fun k => coerceSignal R.mode (R.strategy (R.bars.take (60 + k + 1))))

/-- Signal recorded at bar i (0 out of range, matching the NEUTRAL padding). -/
def sigAt (R : Run) (i : ℕ) : ℤ := (signalsList R).getD i 0

/-- df['returns'] = df['close'].pct_change() at row i ≥ 1. -/
def pctChange (R : Run) (i : ℕ) : ℚ :=
  R.closes.getD i 0 / R.closes.getD (i - 1) 0 - 1

/-- df['strategy_returns'] = df['signal'].shift(1) * df['returns'] * self.leverage.
Row 0 is NaN in the source and is skipped by every later aggregation, which is
equivalent to the 0 used here. -/
def stratReturn (R : Run) (i : ℕ) : ℚ :=
  if i = 0 then 0 else (sigAt R (i - 1) : ℚ) * pctChange R i * R.leverage

/-- df['portfolio_value'] = initial_capital * (1 + strategy_returns).cumprod(). -/
def portfolioValue (R : Run) (i : ℕ) : ℚ :=
  R.initialCapital * (((List.range (i + 1)).map (fun j => 1 + stratReturn R j)).prod)

/-- rolling_max = df['portfolio_value'].cummax(). -/
def runningMax (R : Run) : ℕ → ℚ
  | 0 => portfolioValue R 0
  | k + 1 => max (runningMax R k) (portfolioValue R (k + 1))

/-- drawdown = (portfolio_value - rolling_max) / rolling_max * 100 at bar i. -/
def drawdown (R : Run) (i : ℕ) : ℚ :=
  (portfolioValue R i - runningMax R i) / runningMax R i * 100

/-- The drawdown series as aggregated by drawdown.min(): row 0 is NaN in the
source (portfolio_value starts at a NaN cumprod cell) and is skipped by .min(),
so the minimum ranges over bars 1 .. len-1. -/
def drawdownList (R : Run) : List ℚ :=
  (List.range (R.bars.length - 1)).map (fun k => drawdown R (k + 1))

/-- Series.min(): minimum of the entries, 0 for an empty list (never hit on a
run that passed the length check). -/
def minOrZero : List ℚ → ℚ
  | [] => 0
  | x :: xs => xs.foldl min x

/-- max_drawdown = drawdown.min(). -/
def maxDrawdown (R : Run) : ℚ := minOrZero (drawdownList R)

/-- final_value = df['portfolio_value'].iloc[-1]. -/
def finalValue (R : Run) : ℚ := portfolioValue R (R.bars.length - 1)

/-- total_return = ((final_value / initial_capital) - 1) * 100. -/
def totalReturnPct (R : Run) : ℚ := (finalValue R / R.initialCapital - 1) * 100

/-- df['trade'] = df['signal'].diff().fillna(0) at row i. -/
def tradeAt (R : Run) (i : ℕ) : ℤ :=
  if i = 0 then 0 else sigAt R i - sigAt R (i - 1)

/-- trade_points = df[df['trade'] != 0]: the bar indices of the trade log. -/
def tradePoints (R : Run) : List ℕ :=
  (List.range R.bars.length).filter (fun i => decide (tradeAt R i ≠ 0))

/-- The trade log rows: bar index together with the (new) signal recorded there. -/
def tradeLog (R : Run) : List (ℕ × ℤ) :=
  (tradePoints R).map (fun i => (i, sigAt R i))

/-- total_trades = len(trade_points). -/
def totalTrades (R : Run) : ℕ := (tradePoints R).length

/-- df.loc[start_idx:end_idx, 'strategy_returns'].sum(): pandas .loc label
slicing is inclusive at both ends. -/
def periodReturn (R : Run) (s e : ℕ) : ℚ :=
  ((List.range (e + 1 - s)).map (fun k => stratReturn R (s + k))).sum

/-- trade_returns: for i in range(1, len(trade_points)), the inclusive sum of
strategy returns from trade_points[i-1] to trade_points[i]. -/
def tradeReturns (R : Run) : List ℚ :=
  (List.range (totalTrades R - 1)).map
    (fun k => periodReturn R ((tradePoints R).getD k 0) ((tradePoints R).getD (k + 1) 0))

/-- winning = sum(1 for r in trade_returns if r > 0). -/
def winningTrades (R : Run) : ℕ := (tradeReturns R).countP (fun r => decide (0 < r))

/-- losing = sum(1 for r in trade_returns if r < 0). -/
def losingTrades (R : Run) : ℕ := (tradeReturns R).countP (fun r => decide (r < 0))

/-- win_rate = (winning / len(trade_returns) * 100) if trade_returns else 0. -/
def winRate (R : Run) : ℚ :=
  if tradeReturns R ≠ [] then (winningTrades R : ℚ) / ((tradeReturns R).length : ℚ) * 100
  else 0

/-- avg_trade = np.mean(trade_returns) * 100 if trade_returns else 0. -/
def avgTradeReturnPct (R : Run) : ℚ :=
  if tradeReturns R ≠ [] then (tradeReturns R).sum / ((tradeReturns R).length : ℚ) * 100
  else 0

/-- gross_profit = sum(r for r in trade_returns if r > 0). -/
def grossProfit (R : Run) : ℚ := ((tradeReturns R).filter (fun r => decide (0 < r))).sum

/-- gross_loss = abs(sum(r for r in trade_returns if r < 0)). -/
def grossLoss (R : Run) : ℚ := |((tradeReturns R).filter (fun r => decide (r < 0))).sum|

/-- Reported profit factor: gross_profit / gross_loss if gross_loss > 0 else
float('inf'), which the BacktestResult construction then replaces by 99.99. -/
def profitFactor (R : Run) : ℚ :=
  if 0 < grossLoss R then grossProfit R / grossLoss R else 99.99

/-- Guard at the top of Backtester.run: raise ValueError (insufficient data)
when len(self.df) < 60.  (The self.df is None case means fetch_data was never
called and is outside a run on a given series.) -/
def raisesInsufficientData (bars : List Bar) : Bool := bars.length < 60

/-- Spec-side transition list: bar indices i ≥ 1 where the recorded signal
differs from the previous bar's recorded signal. -/
def transitions (R : Run) : List ℕ :=
  (List.range R.bars.length).filter (fun i => decide (1 ≤ i ∧ sigAt R i ≠ sigAt R (i - 1)))

/-- hourly_returns = df['strategy_returns'].dropna(): rows 1 .. len-1. -/
def hourlyReturns (R : Run) : List ℚ :=
  (List.range (R.bars.length - 1)).map (fun k => stratReturn R (k + 1))

/-- Series.mean() of the strategy returns. -/
def meanReturn (R : Run) : ℚ := (hourlyReturns R).sum / ((hourlyReturns R).length : ℚ)

/-- Series.std(): pandas uses the sample variance (ddof=1). -/
def sampleVariance (R : Run) : ℚ :=
  ((hourlyReturns R).map (fun x => (x - meanReturn R) ^ 2)).sum
    / (((hourlyReturns R).length - 1 : ℕ) : ℚ)

/-- hourly_returns.std() = sqrt of the sample variance. -/
noncomputable def stdReturn (R : Run) : ℝ := Real.sqrt (sampleVariance R : ℚ)

/-- sharpe = (mean / std) * sqrt(24 * 365) when there are returns and std > 0,
else 0. -/
noncomputable def sharpeRatio (R : Run) : ℝ :=
  if 0 < (hourlyReturns R).length ∧ 0 < stdReturn R then
    ((meanReturn R : ℝ) / stdReturn R) * Real.sqrt (24 * 365)
  else 0

/-! Helper lemmas about the recorded signal sequence. -/

lemma signalsList_length (R : Run) :
    (signalsList R).length = 60 + (R.bars.length - 60) := by
  unfold signalsList
  rw [List.length_append, List.length_replicate, List.length_map, List.length_range]

lemma sigAt_of_lt (R : Run) {i : ℕ} (h : i < 60) : sigAt R i = 0 := by
  unfold sigAt signalsList
  rw [List.getD_eq_getElem?_getD, List.getElem?_append,
    if_pos (by rw [List.length_replicate]; exact h), List.getElem?_replicate, if_pos h]
  rfl

lemma sigAt_of_ge (R : Run) {i : ℕ} (h : 60 ≤ i) (h2 : i < R.bars.length) :
    sigAt R i = coerceSignal R.mode (R.strategy (R.bars.take (i + 1))) := by
  unfold sigAt signalsList
  rw [List.getD_eq_getElem?_getD, List.getElem?_append,
    if_neg (by rw [List.length_replicate]; omega)]
  rw [List.length_replicate, List.getElem?_map,
    List.getElem?_range (by omega : i - 60 < R.bars.length - 60)]
  simp only [Option.map_some', Option.getD_some]
  rw [show 60 + (i - 60) + 1 = i + 1 by omega]

lemma coerceSignal_ne_neg_one (s : ℤ) : coerceSignal "long_only" s ≠ -1 := by
  unfold coerceSignal
  split
  · decide
  · next hc =>
    intro hs
    exact hc ⟨rfl, hs⟩

lemma sigAt_long_only_ne_neg_one (R : Run) (h : R.mode = "long_only") (i : ℕ) :
    sigAt R i ≠ -1 := by
  unfold sigAt
  rw [List.getD_eq_getElem?_getD]
  cases hx : (signalsList R)[i]? with
  | none => decide
  | some s =>
    have hmem : s ∈ signalsList R := List.getElem?_mem hx
    unfold signalsList at hmem
    rcases List.mem_append.mp hmem with hrep | hmap
    · have : s = 0 := List.eq_of_mem_replicate hrep
      simp [this]
    · rcases List.mem_map.mp hmap with ⟨k, _, hk⟩
      simpa [← hk, h] using coerceSignal_ne_neg_one (R.strategy (R.bars.take (60 + k + 1)))

/-- C1: the position return credited at bar i (for i at or after the warm-up
index 60) is the previous bar's recorded signal times the close-to-close
percent change times the engine's leverage multiplier; the previous signal is
the (coerced) strategy output on the prefix ending at bar i-1, and at the
warm-up bar itself the prior signal is the NEUTRAL padding, so the return is 0. -/
theorem position_return_uses_prev_bar_signal (R : Run) (i : ℕ)
    (h60 : 60 ≤ i) (hn : i < R.bars.length) :
    stratReturn R i = (sigAt R (i - 1) : ℚ) * pctChange R i * R.leverage
    ∧ (61 ≤ i → sigAt R (i - 1) = coerceSignal R.mode (R.strategy (R.bars.take i)))
    ∧ (i = 60 → stratReturn R i = 0) := by
  refine ⟨?_, ?_, ?_⟩
  · unfold stratReturn
    rw [if_neg (by omega)]
  · intro h61
    rw [sigAt_of_ge R (show 60 ≤ i - 1 by omega) (show i - 1 < R.bars.length by omega)]
    rw [show i - 1 + 1 = i by omega]
  · intro he
    subst he
    unfold stratReturn
    rw [if_neg (by omega), sigAt_of_lt R (by omega)]
    push_cast
    ring

theorem position_return_uses_prev_bar_signal_witness :
    (60 ≤ 60 ∧ 60 < (List.replicate 61 (⟨1, 1, 1, 1, 0⟩ : Bar)).length)
    ∧ stratReturn ⟨fun _ => 1, "long_only", 1, 100, List.replicate 61 ⟨1, 1, 1, 1, 0⟩⟩ 60 = 0 :=
  ⟨⟨by decide, by decide⟩,
    (position_return_uses_prev_bar_signal
      ⟨fun _ => 1, "long_only", 1, 100, List.replicate 61 ⟨1, 1, 1, 1, 0⟩⟩ 60
      (by decide) (by decide)).2.2 rfl⟩

/-- C2: in long_only mode every SHORT (-1) strategy output is coerced to
NEUTRAL right after the strategy call, so no recorded signal is -1 and no
trade-log row carries signal -1, for any strategy whatsoever. -/
theorem long_only_never_short (R : Run) (h : R.mode = "long_only") :
    (∀ i, sigAt R i ≠ -1) ∧ ∀ p ∈ tradeLog R, p.2 ≠ -1 := by
  refine ⟨sigAt_long_only_ne_neg_one R h, ?_⟩
  intro p hp
  rcases List.mem_map.mp hp with ⟨i, _, hpi⟩
  rw [← hpi]
  exact sigAt_long_only_ne_neg_one R h i

theorem long_only_never_short_witness :
    (⟨fun _ => -1, "long_only", 1, 100, List.replicate 61 ⟨1, 1, 1, 1, 0⟩⟩ : Run).mode = "long_only"
    ∧ sigAt ⟨fun _ => -1, "long_only", 1, 100, List.replicate 61 ⟨1, 1, 1, 1, 0⟩⟩ 60 ≠ -1 :=
  ⟨rfl, (long_only_never_short _ rfl).1 60⟩

lemma sigAt_eq_zero_of_len60 (R : Run) (h : R.bars.length = 60) (i : ℕ) :
    sigAt R i = 0 := by
  unfold sigAt signalsList
  rw [h]
  simp only [Nat.sub_self, List.range_zero, List.map_nil, List.append_nil]
  rw [List.getD_eq_getElem?_getD, List.getElem?_replicate]
  split <;> simp

/-- C6 counterexample: a series of exactly 60 bars has fewer than warm-up+1 =
61 bars, yet the engine's length check does not fire (it only requires 60). -/
theorem insufficient_data_cex :
    (List.replicate 60 (⟨1, 1, 1, 1, 0⟩ : Bar)).length < 61
    ∧ raisesInsufficientData (List.replicate 60 ⟨1, 1, 1, 1, 0⟩) = false := by
  decide

/-- C6 amended: Backtester.run raises its insufficient-data ValueError exactly
when the series has fewer than 60 bars (the warm-up), not fewer than 61; a
series of exactly 60 bars is accepted and produces a silent zero-trade result. -/
theorem insufficient_data_check_boundary :
    (∀ bars : List Bar, raisesInsufficientData bars = true ↔ bars.length < 60)
    ∧ ∀ R : Run, R.bars.length = 60 → totalTrades R = 0 := by
  constructor
  · intro bars
    simp [raisesInsufficientData]
  · intro R h
    have htp : tradePoints R = [] := by
      apply List.filter_eq_nil_iff.mpr
      intro i _
      have : tradeAt R i = 0 := by
        unfold tradeAt
        split
        · rfl
        · rw [sigAt_eq_zero_of_len60 R h, sigAt_eq_zero_of_len60 R h]
          rfl
      simp [this]
    simp [totalTrades, htp]

theorem insufficient_data_check_boundary_witness :
    raisesInsufficientData (List.replicate 59 ⟨1, 1, 1, 1, 0⟩) = true
    ∧ (⟨fun _ => 1, "leveraged", 3, 100, List.replicate 60 ⟨1, 1, 1, 1, 0⟩⟩ : Run).bars.length = 60
    ∧ totalTrades ⟨fun _ => 1, "leveraged", 3, 100, List.replicate 60 ⟨1, 1, 1, 1, 0⟩⟩ = 0 :=
  ⟨(insufficient_data_check_boundary.1 _).mpr (by decide), by decide,
    insufficient_data_check_boundary.2 _ (by decide)⟩

/-! Helper lemmas about the equity curve and its running maximum. -/

lemma portfolioValue_zero (R : Run) : portfolioValue R 0 = R.initialCapital := by
  unfold portfolioValue
  rw [show (0 + 1 : ℕ) = 1 from rfl, List.range_succ, List.range_zero]
  simp [stratReturn]

lemma le_runningMax_self (R : Run) (i : ℕ) : portfolioValue R i ≤ runningMax R i := by
  cases i with
  | zero => exact le_refl _
  | succ k => exact le_max_right _ _

lemma runningMax_le_succ (R : Run) (i : ℕ) : runningMax R i ≤ runningMax R (i + 1) :=
  le_max_left _ _

lemma pv0_le_runningMax (R : Run) (i : ℕ) : portfolioValue R 0 ≤ runningMax R i := by
  induction i with
  | zero => exact le_refl _
  | succ k ih => exact le_trans ih (runningMax_le_succ R k)

lemma runningMax_pos (R : Run) (h : 0 < R.initialCapital) (i : ℕ) : 0 < runningMax R i :=
  lt_of_lt_of_le (portfolioValue_zero R ▸ h) (pv0_le_runningMax R i)

lemma drawdown_nonpos (R : Run) (h : 0 < R.initialCapital) (i : ℕ) : drawdown R i ≤ 0 := by
  unfold drawdown
  have h1 : portfolioValue R i - runningMax R i ≤ 0 :=
    sub_nonpos.mpr (le_runningMax_self R i)
  have h2 : (0:ℚ) < runningMax R i := runningMax_pos R h i
  have h3 : (portfolioValue R i - runningMax R i) / runningMax R i ≤ 0 :=
    div_nonpos_iff.mpr (Or.inr ⟨h1, h2.le⟩)
  nlinarith

lemma drawdown_eq_zero_iff (R : Run) (h : 0 < R.initialCapital) (i : ℕ) :
    drawdown R i = 0 ↔ portfolioValue R i = runningMax R i := by
  unfold drawdown
  constructor
  · intro hz
    rcases mul_eq_zero.mp hz with hq | h100
    · rcases div_eq_zero_iff.mp hq with hs | hr
      · exact sub_eq_zero.mp hs
      · exact absurd hr (ne_of_gt (runningMax_pos R h i))
    · norm_num at h100
  · intro he
    rw [he, sub_self, zero_div, zero_mul]

lemma foldl_min_le_init (xs : List ℚ) (a : ℚ) : xs.foldl min a ≤ a := by
  induction xs generalizing a with
  | nil => exact le_refl a
  | cons x t ih => exact le_trans (ih (min a x)) (min_le_left a x)

lemma foldl_min_le_mem (xs : List ℚ) : ∀ (a : ℚ) {y : ℚ}, y ∈ xs → xs.foldl min a ≤ y := by
  induction xs with
  | nil => intro a y hy; exact absurd hy (List.not_mem_nil y)
  | cons x t ih =>
    intro a y hy
    rcases List.mem_cons.mp hy with rfl | hyt
    · exact le_trans (foldl_min_le_init t (min a y)) (min_le_right a y)
    · exact ih (min a x) hyt

lemma foldl_min_all_zero (xs : List ℚ) (a : ℚ) (ha : a = 0) (hxs : ∀ y ∈ xs, y = 0) :
    xs.foldl min a = 0 := by
  induction xs generalizing a with
  | nil => exact ha
  | cons x t ih =>
    have hx : x = 0 := hxs x (List.mem_cons_self x t)
    exact ih (min a x) (by rw [ha, hx, min_self]) (fun y hy => hxs y (List.mem_cons_of_mem x hy))

lemma minOrZero_nonpos (xs : List ℚ) (h : ∀ y ∈ xs, y ≤ 0) : minOrZero xs ≤ 0 := by
  cases xs with
  | nil => exact le_refl 0
  | cons x t =>
    exact le_trans (foldl_min_le_init t x) (h x (List.mem_cons_self x t))

lemma minOrZero_eq_zero_iff (xs : List ℚ) (h : ∀ y ∈ xs, y ≤ 0) :
    minOrZero xs = 0 ↔ ∀ y ∈ xs, y = 0 := by
  cases xs with
  | nil => simp [minOrZero]
  | cons x t =>
    constructor
    · intro hz y hy
      have hle : minOrZero (x :: t) ≤ y := by
        rcases List.mem_cons.mp hy with rfl | hyt
        · exact foldl_min_le_init t y
        · exact foldl_min_le_mem t x hyt
      rw [hz] at hle
      exact le_antisymm (h y hy) hle
    · intro hall
      exact foldl_min_all_zero t x (hall x (List.mem_cons_self x t))
        (fun y hy => hall y (List.mem_cons_of_mem x hy))

lemma runningMax_eq_of_monotone (R : Run)
    (hmono : ∀ i, i + 1 < R.bars.length → portfolioValue R i ≤ portfolioValue R (i + 1)) :
    ∀ i, i < R.bars.length → runningMax R i = portfolioValue R i := by
  intro i
  induction i with
  | zero => intro _; rfl
  | succ k ih =>
    intro hk
    have hrmk : runningMax R k = portfolioValue R k := ih (by omega)
    show max (runningMax R k) (portfolioValue R (k + 1)) = portfolioValue R (k + 1)
    rw [hrmk]
    exact max_eq_right (hmono k hk)

/-- C3: the reported max drawdown (the minimum over bars of
(value - runningMax)/runningMax * 100, with a forward-only running maximum) is
always ≤ 0, and equals 0 exactly when the portfolio-value curve never
decreases. -/
theorem max_drawdown_nonpos_iff_monotone (R : Run) (hcap : 0 < R.initialCapital)
    (hlen : 60 ≤ R.bars.length) :
    maxDrawdown R ≤ 0
    ∧ (maxDrawdown R = 0 ↔
        ∀ i, i + 1 < R.bars.length → portfolioValue R i ≤ portfolioValue R (i + 1)) := by
  have hall : ∀ y ∈ drawdownList R, y ≤ 0 := by
    intro y hy
    rcases List.mem_map.mp hy with ⟨k, _, rfl⟩
    exact drawdown_nonpos R hcap (k + 1)
  constructor
  · exact minOrZero_nonpos _ hall
  · rw [show maxDrawdown R = minOrZero (drawdownList R) from rfl,
      minOrZero_eq_zero_iff _ hall]
    constructor
    · intro hz i hi
      have hmem : drawdown R (i + 1) ∈ drawdownList R := by
        apply List.mem_map.mpr
        exact ⟨i, List.mem_range.mpr (by omega), rfl⟩
      have h0 : drawdown R (i + 1) = 0 := hz _ hmem
      have heq : portfolioValue R (i + 1) = runningMax R (i + 1) :=
        (drawdown_eq_zero_iff R hcap (i + 1)).mp h0
      calc portfolioValue R i ≤ runningMax R i := le_runningMax_self R i
        _ ≤ runningMax R (i + 1) := runningMax_le_succ R i
        _ = portfolioValue R (i + 1) := heq.symm
    · intro hmono y hy
      rcases List.mem_map.mp hy with ⟨k, hk, rfl⟩
      apply (drawdown_eq_zero_iff R hcap (k + 1)).mpr
      exact (runningMax_eq_of_monotone R hmono (k + 1)
        (by have := List.mem_range.mp hk; omega)).symm

theorem max_drawdown_nonpos_iff_monotone_witness :
    ((0:ℚ) < 100 ∧ 60 ≤ (List.replicate 61 (⟨1, 1, 1, 1, 0⟩ : Bar)).length)
    ∧ maxDrawdown ⟨fun _ => 0, "long_only", 1, 100, List.replicate 61 ⟨1, 1, 1, 1, 0⟩⟩ ≤ 0 :=
  ⟨⟨by norm_num, by decide⟩,
    (max_drawdown_nonpos_iff_monotone
      ⟨fun _ => 0, "long_only", 1, 100, List.replicate 61 ⟨1, 1, 1, 1, 0⟩⟩
      (by norm_num) (by decide)).1⟩

/-! Helper lemmas about the trade log and per-trade returns. -/

lemma getD_map_range {α : Type} (f : ℕ → α) {m k : ℕ} (d : α) (h : k < m) :
    ((List.range m).map f).getD k d = f k := by
  rw [List.getD_eq_getElem?_getD, List.getElem?_map, List.getElem?_range h]
  rfl

lemma tradeReturns_length (R : Run) : (tradeReturns R).length = totalTrades R - 1 := by
  unfold tradeReturns
  rw [List.length_map, List.length_range]

lemma countP_pos_add_countP_neg_le (l : List ℚ) :
    l.countP (fun r => decide (0 < r)) + l.countP (fun r => decide (r < 0)) ≤ l.length := by
  induction l with
  | nil => simp
  | cons x t ih =>
    rw [List.countP_cons, List.countP_cons, List.length_cons]
    by_cases h1 : 0 < x
    · have h2 : ¬x < 0 := fun hb => absurd (lt_trans h1 hb) (lt_irrefl 0)
      rw [if_pos (by simpa using h1), if_neg (by simpa using h2)]
      omega
    · rw [if_neg (by simpa using h1)]
      by_cases h2 : x < 0
      · rw [if_pos (by simpa using h2)]
        omega
      · rw [if_neg (by simpa using h2)]
        omega

/-- C10: the number of per-trade returns entering the win/loss, win-rate and
profit-factor statistics is totalTrades - 1 (truncated subtraction, i.e.
max(N-1, 0)): the segment after the last transition is never scored, so
winning + losing ≤ N - 1, and a run with at most one transition reports win
rate 0. -/
theorem trade_stats_drop_final_segment (R : Run) :
    (tradeReturns R).length = totalTrades R - 1
    ∧ winningTrades R + losingTrades R ≤ totalTrades R - 1
    ∧ (totalTrades R ≤ 1 → winRate R = 0) := by
  refine ⟨tradeReturns_length R, ?_, ?_⟩
  · rw [← tradeReturns_length R]
    exact countP_pos_add_countP_neg_le (tradeReturns R)
  · intro h1
    have hnil : tradeReturns R = [] := by
      have : (tradeReturns R).length = 0 := by rw [tradeReturns_length R]; omega
      exact List.length_eq_zero.mp this
    unfold winRate
    rw [if_neg (by simp [hnil])]

theorem trade_stats_drop_final_segment_witness :
    totalTrades ⟨fun _ => 1, "long_only", 1, 100, List.replicate 60 ⟨1, 1, 1, 1, 0⟩⟩ ≤ 1
    ∧ winRate ⟨fun _ => 1, "long_only", 1, 100, List.replicate 60 ⟨1, 1, 1, 1, 0⟩⟩ = 0 :=
  ⟨by decide,
    (trade_stats_drop_final_segment
      ⟨fun _ => 1, "long_only", 1, 100, List.replicate 60 ⟨1, 1, 1, 1, 0⟩⟩).2.2 (by decide)⟩

lemma sum_neg_of_all_neg : ∀ (l : List ℚ), (∀ x ∈ l, x < 0) → l ≠ [] → l.sum < 0 := by
  intro l
  induction l with
  | nil => intro _ hne; exact absurd rfl hne
  | cons x t ih =>
    intro hall _
    rw [List.sum_cons]
    have hx : x < 0 := hall x (List.mem_cons_self x t)
    cases t with
    | nil => simpa using hx
    | cons y u =>
      have ht : (y :: u).sum < 0 :=
        ih (fun z hz => hall z (List.mem_cons_of_mem x hz)) (List.cons_ne_nil y u)
      linarith

/-- C5: the reported profit factor is gross positive per-trade return over the
absolute gross negative per-trade return whenever a losing trade exists, and is
the finite sentinel 99.99 (substituted for float('inf') when building the
BacktestResult) whenever there are no losing trades; being a rational either
way, no division-by-zero error can escape. -/
theorem profit_factor_gross_ratio_or_sentinel (R : Run) :
    (0 < losingTrades R → profitFactor R = grossProfit R / grossLoss R)
    ∧ (losingTrades R = 0 → profitFactor R = 99.99) := by
  constructor
  · intro hpos
    have hex : ∃ r ∈ tradeReturns R, (fun r => decide (r < 0)) r := by
      exact List.countP_pos_iff.mp hpos
    have hsum : ((tradeReturns R).filter (fun r => decide (r < 0))).sum < 0 := by
      apply sum_neg_of_all_neg
      · intro x hx
        have := (List.mem_filter.mp hx).2
        simpa using this
      · rcases hex with ⟨r, hr, hrneg⟩
        intro hnil
        have : r ∈ (tradeReturns R).filter (fun r => decide (r < 0)) :=
          List.mem_filter.mpr ⟨hr, hrneg⟩
        rw [hnil] at this
        exact absurd this (List.not_mem_nil r)
    have hgl : 0 < grossLoss R := by
      unfold grossLoss
      exact abs_pos.mpr (ne_of_lt hsum)
    unfold profitFactor
    rw [if_pos hgl]
  · intro hzero
    have hfil : (tradeReturns R).filter (fun r => decide (r < 0)) = [] := by
      have h := hzero
      unfold losingTrades at h
      rw [List.countP_eq_length_filter] at h
      exact List.length_eq_zero.mp h
    have hgl : grossLoss R = 0 := by
      unfold grossLoss
      rw [hfil]
      simp
    unfold profitFactor
    rw [hgl, if_neg (lt_irrefl 0)]

theorem profit_factor_gross_ratio_or_sentinel_witness :
    losingTrades ⟨fun _ => 0, "long_only", 1, 100, List.replicate 60 ⟨1, 1, 1, 1, 0⟩⟩ = 0
    ∧ profitFactor ⟨fun _ => 0, "long_only", 1, 100, List.replicate 60 ⟨1, 1, 1, 1, 0⟩⟩ = 99.99 :=
  ⟨by decide,
    (profit_factor_gross_ratio_or_sentinel
      ⟨fun _ => 0, "long_only", 1, 100, List.replicate 60 ⟨1, 1, 1, 1, 0⟩⟩).2 (by decide)⟩

lemma tradePoints_eq_transitions (R : Run) : tradePoints R = transitions R := by
  unfold tradePoints transitions
  apply List.filter_congr
  intro i _
  apply decide_eq_decide.mpr
  unfold tradeAt
  by_cases h : i = 0
  · subst h
    simp
  · rw [if_neg h]
    rw [sub_ne_zero]
    constructor
    · intro hne
      exact ⟨by omega, hne⟩
    · intro ⟨_, hne⟩
      exact hne

/-- C8: a trade-log row exists at bar i exactly when the recorded signal at i
differs from the recorded signal at i-1 (i ≥ 1); total_trades counts exactly
those transitions; each per-trade return is the inclusive sum of per-bar
position returns between consecutive transition points; a win is a positive
and a loss a negative such sum. -/
theorem trade_log_marks_signal_transitions (R : Run) :
    tradePoints R = transitions R
    ∧ totalTrades R = (transitions R).length
    ∧ (∀ k, k + 1 < totalTrades R →
        (tradeReturns R).getD k 0 =
          periodReturn R ((transitions R).getD k 0) ((transitions R).getD (k + 1) 0))
    ∧ winningTrades R = ((tradeReturns R).filter (fun r => decide (0 < r))).length
    ∧ losingTrades R = ((tradeReturns R).filter (fun r => decide (r < 0))).length := by
  refine ⟨tradePoints_eq_transitions R, ?_, ?_, ?_, ?_⟩
  · unfold totalTrades
    rw [tradePoints_eq_transitions R]
  · intro k hk
    unfold tradeReturns
    rw [getD_map_range _ _ (by omega), tradePoints_eq_transitions R]
  · exact List.countP_eq_length_filter _ _
  · exact List.countP_eq_length_filter _ _

theorem trade_log_marks_signal_transitions_witness :
    0 + 1 < totalTrades ⟨fun l => if l.length % 2 = 0 then 1 else 0, "leveraged", 2, 100,
      List.replicate 63 ⟨1, 1, 1, 1, 0⟩⟩
    ∧ (tradeReturns ⟨fun l => if l.length % 2 = 0 then 1 else 0, "leveraged", 2, 100,
        List.replicate 63 ⟨1, 1, 1, 1, 0⟩⟩).getD 0 0 =
      periodReturn ⟨fun l => if l.length % 2 = 0 then 1 else 0, "leveraged", 2, 100,
          List.replicate 63 ⟨1, 1, 1, 1, 0⟩⟩
        ((transitions ⟨fun l => if l.length % 2 = 0 then 1 else 0, "leveraged", 2, 100,
          List.replicate 63 ⟨1, 1, 1, 1, 0⟩⟩).getD 0 0)
        ((transitions ⟨fun l => if l.length % 2 = 0 then 1 else 0, "leveraged", 2, 100,
          List.replicate 63 ⟨1, 1, 1, 1, 0⟩⟩).getD (0 + 1) 0) :=
  ⟨by decide,
    (trade_log_marks_signal_transitions
      ⟨fun l => if l.length % 2 = 0 then 1 else 0, "leveraged", 2, 100,
        List.replicate 63 ⟨1, 1, 1, 1, 0⟩⟩).2.2.1 0 (by decide)⟩

/-! Helper lemmas for the Sharpe ratio and the flat-series scenario. -/

lemma hourlyReturns_length (R : Run) : (hourlyReturns R).length = R.bars.length - 1 := by
  unfold hourlyReturns
  rw [List.length_map, List.length_range]

lemma getD_replicate_of_lt {α : Type} (a d : α) {n i : ℕ} (h : i < n) :
    (List.replicate n a).getD i d = a := by
  rw [List.getD_eq_getElem?_getD, List.getElem?_replicate, if_pos h]
  rfl

lemma stratReturn_eq_zero_of_flat (R : Run) (c : ℚ) (hc : c ≠ 0)
    (hflat : ∀ i, i < R.bars.length → R.closes.getD i 0 = c)
    (k : ℕ) (hk : k + 1 < R.bars.length) : stratReturn R (k + 1) = 0 := by
  unfold stratReturn
  rw [if_neg (Nat.succ_ne_zero k)]
  have hpct : pctChange R (k + 1) = 0 := by
    unfold pctChange
    rw [Nat.add_sub_cancel, hflat (k + 1) hk, hflat k (by omega), div_self hc]
    ring
  rw [hpct]
  ring

/-- C4: the reported Sharpe ratio is mean over sample standard deviation of
the per-bar position returns, annualized by sqrt(24*365), whenever that
standard deviation is positive; a zero standard deviation reports exactly 0;
and on a flat close series both the total return and the Sharpe ratio are 0,
whatever the strategy signals. -/
theorem sharpe_mean_over_std_or_zero (R : Run) (hn : 61 ≤ R.bars.length) :
    (0 < stdReturn R →
      sharpeRatio R = ((meanReturn R : ℝ) / stdReturn R) * Real.sqrt (24 * 365))
    ∧ (stdReturn R = 0 → sharpeRatio R = 0)
    ∧ (∀ c : ℚ, c ≠ 0 → (∀ i, i < R.bars.length → R.closes.getD i 0 = c) →
        R.initialCapital ≠ 0 → totalReturnPct R = 0 ∧ sharpeRatio R = 0) := by
  have hlenpos : 0 < (hourlyReturns R).length := by
    rw [hourlyReturns_length R]
    omega
  have hzero : stdReturn R = 0 → sharpeRatio R = 0 := by
    intro hstd
    unfold sharpeRatio
    rw [if_neg]
    intro ⟨_, hpos⟩
    rw [hstd] at hpos
    exact absurd hpos (lt_irrefl 0)
  refine ⟨?_, hzero, ?_⟩
  · intro hstd
    unfold sharpeRatio
    rw [if_pos ⟨hlenpos, hstd⟩]
  · intro c hc hflat hcap
    have hret : ∀ x ∈ hourlyReturns R, x = 0 := by
      intro x hx
      rcases List.mem_map.mp hx with ⟨k, hk, rfl⟩
      exact stratReturn_eq_zero_of_flat R c hc hflat k
        (by have := List.mem_range.mp hk; omega)
    have hmean : meanReturn R = 0 := by
      unfold meanReturn
      rw [List.sum_eq_zero hret, zero_div]
    have hvar : sampleVariance R = 0 := by
      unfold sampleVariance
      rw [List.sum_eq_zero, zero_div]
      intro y hy
      rcases List.mem_map.mp hy with ⟨x, hx, rfl⟩
      rw [hret x hx, hmean]
      ring
    have hstd : stdReturn R = 0 := by
      unfold stdReturn
      rw [hvar]
      simp
    refine ⟨?_, hzero hstd⟩
    have hfinal : finalValue R = R.initialCapital := by
      unfold finalValue portfolioValue
      rw [List.prod_eq_one, mul_one]
      intro y hy
      rcases List.mem_map.mp hy with ⟨j, hj, rfl⟩
      have hjlt : j < R.bars.length := by
        have := List.mem_range.mp hj
        omega
      cases j with
      | zero =>
        unfold stratReturn
        rw [if_pos rfl]
        ring
      | succ k =>
        rw [stratReturn_eq_zero_of_flat R c hc hflat k hjlt]
        ring
    unfold totalReturnPct
    rw [hfinal, div_self hcap]
    ring

theorem sharpe_mean_over_std_or_zero_witness :
    61 ≤ (⟨fun _ => 1, "leveraged", 3, 100,
        List.replicate 61 ⟨1, 1, 1, 100, 0⟩⟩ : Run).bars.length
    ∧ totalReturnPct ⟨fun _ => 1, "leveraged", 3, 100, List.replicate 61 ⟨1, 1, 1, 100, 0⟩⟩ = 0
    ∧ sharpeRatio ⟨fun _ => 1, "leveraged", 3, 100, List.replicate 61 ⟨1, 1, 1, 100, 0⟩⟩ = 0 := by
  refine ⟨by decide, ?_⟩
  apply (sharpe_mean_over_std_or_zero
    ⟨fun _ => 1, "leveraged", 3, 100, List.replicate 61 ⟨1, 1, 1, 100, 0⟩⟩ (by decide)).2.2
    100 (by norm_num) ?_ (by norm_num)
  intro i hi
  simp only [Run.closes, List.map_replicate]
  exact getD_replicate_of_lt _ _ (by simpa using hi)

/-! Indicator layer (src/trader/strategies.py).  Series cells are Option ℚ:
none is a pandas NaN.  Comparisons against NaN are False, as in IEEE floats. -/

/-- Series element access: defined inside the series, none beyond it. -/
def seriesGet (xs : List ℚ) (i : ℕ) : Option ℚ :=
  if i < xs.length then some (xs.getD i 0) else none

/-- prices.diff(): NaN at row 0, else the difference of adjacent closes. -/
def deltaAt (xs : List ℚ) (i : ℕ) : Option ℚ :=
  if i = 0 then none
  else
    match seriesGet xs i, seriesGet xs (i - 1) with
    | some a, some b => some (a - b)
    | _, _ => none

/-- delta.where(delta > 0, 0): keeps the change where the comparison delta > 0
is True, else writes 0.  The row-0 diff NaN compares False and is therefore
silently replaced by 0, so the gain series has no NaN inside the series. -/
def gainAt (xs : List ℚ) (i : ℕ) : Option ℚ :=
  if i < xs.length then
    some (match deltaAt xs i with
          | some d => if 0 < d then d else 0
          | none => 0)
  else none

/-- -delta.where(delta < 0, 0): the magnitude of the negative price change;
as with the gains, the row-0 NaN compares False against delta < 0 and the cell
becomes -0 = 0, so the loss series has no NaN inside the series. -/
def lossAt (xs : List ℚ) (i : ℕ) : Option ℚ :=
  if i < xs.length then
    some (match deltaAt xs i with
          | some d => if d < 0 then -d else 0
          | none => 0)
  else none

/-- Series.rolling(window=period).mean() at position i: defined only when the
window fits and every cell in it is non-NaN (pandas min_periods defaults to
the window size). -/
def rollingMeanOpt (f : ℕ → Option ℚ) (period i : ℕ) : Option ℚ :=
  if period ≤ i + 1 ∧ ((List.range period).map (fun k => f (i - k))).all Option.isSome then
    some (((List.range period).map (fun k => (f (i - k)).getD 0)).sum / (period : ℚ))
  else none

/-- Rolling mean of gains in calculate_rsi. -/
def rsiGainAvg (xs : List ℚ) (period i : ℕ) : Option ℚ :=
  rollingMeanOpt (gainAt xs) period i

/-- Rolling mean of losses in calculate_rsi. -/
def rsiLossAvg (xs : List ℚ) (period i : ℕ) : Option ℚ :=
  rollingMeanOpt (lossAt xs) period i

/-- calculate_rsi cell at position i: rs = gain/loss and rsi = 100 - 100/(1+rs)
under IEEE float semantics: loss > 0 gives the usual finite formula; loss = 0
with gain > 0 gives rs = +inf hence rsi = 100; loss = 0 with gain = 0 gives
rs = NaN hence rsi = NaN (none); any NaN input stays NaN. -/
def rsiAt (xs : List ℚ) (period i : ℕ) : Option ℚ :=
  match rsiGainAvg xs period i, rsiLossAvg xs period i with
  | some g, some l =>
    if 0 < l then some (100 - 100 / (1 + g / l))
    else if 0 < g then some 100
    else none
  | _, _ => none

/-- calculate_sma cell at position i. -/
def smaAt (xs : List ℚ) (period i : ℕ) : Option ℚ :=
  rollingMeanOpt (seriesGet xs) period i

/-- Float comparison a > b with NaN operands comparing False. -/
def optGT (a b : Option ℚ) : Bool :=
  match a, b with
  | some x, some y => decide (y < x)
  | _, _ => false

/-- Float comparison a >= b with NaN operands comparing False. -/
def optGE (a b : Option ℚ) : Bool :=
  match a, b with
  | some x, some y => decide (y ≤ x)
  | _, _ => false

/-- Float comparison a <= b with NaN operands comparing False. -/
def optLE (a b : Option ℚ) : Bool :=
  match a, b with
  | some x, some y => decide (x ≤ y)
  | _, _ => false

/-- TradeSignal as far as the claims read it: signal value, confidence, reason
and reference price.  The advisory indicators dict is not modelled, and the
numeric pieces interpolated into reason strings use toString rather than
Python's fixed-point formatting. -/
structure TradeSignal where
  signal : ℤ
  confidence : ℚ
  reason : String
  price : ℚ

/-- SMAStrategy.analyze on the close column.  Valid for inputs of length ≥ 2
(shorter inputs raise IndexError at iloc[-2] in the source).  Comparisons on
NaN SMA/RSI cells are False, reproducing the pandas float behaviour. -/
def smaAnalyze (fastPeriod slowPeriod : ℕ) (useRsiFilter : Bool)
    (rsiOverbought rsiOversold : ℚ) (closes : List ℚ) : TradeSignal :=
  let n := closes.length
  let currentPrice := closes.getD (n - 1) 0
  let fastCur := smaAt closes fastPeriod (n - 1)
  let slowCur := smaAt closes slowPeriod (n - 1)
  let rsiCur := rsiAt closes 14 (n - 1)
  let fastPrev := smaAt closes fastPeriod (n - 2)
  let slowPrev := smaAt closes slowPeriod (n - 2)
  let base : ℤ × ℚ × String :=
    if optGT fastCur slowCur then
      if optLE fastPrev slowPrev then
        (1, 0.8, "Bullish crossover: SMA" ++ toString fastPeriod ++
          " crossed above SMA" ++ toString slowPeriod)
      else
        (1, 0.6, "Uptrend: SMA" ++ toString fastPeriod ++ " > SMA" ++ toString slowPeriod)
    else
      if optGE fastPrev slowPrev then
        (-1, 0.8, "Bearish crossover: SMA" ++ toString fastPeriod ++
          " crossed below SMA" ++ toString slowPeriod)
      else
        (-1, 0.6, "Downtrend: SMA" ++ toString fastPeriod ++ " < SMA" ++ toString slowPeriod)
  let final : ℤ × ℚ × String :=
    match rsiCur with
    | some r =>
      if useRsiFilter then
        if base.1 = 1 ∧ rsiOverbought < r then
          (0, 0.3, "RSI filter: Overbought (" ++ toString r ++ " > " ++
            toString rsiOverbought ++ ") - blocking LONG")
        else if base.1 = -1 ∧ r < rsiOversold then
          (0, 0.3, "RSI filter: Oversold (" ++ toString r ++ " < " ++
            toString rsiOversold ++ ") - blocking SHORT")
        else base
      else base
    | none => base
  { signal := final.1, confidence := final.2.1, reason := final.2.2, price := currentPrice }

/-- get_strategy("sma") = SMAStrategy(use_rsi_filter=True) with the default
periods 20/50 and RSI thresholds 70/30. -/
def getStrategySma : List ℚ → TradeSignal := smaAnalyze 20 50 true 70 30

/-- Rolling max/min over the last `period` entries of xs (used only when
xs.length ≥ period, where prices.iloc[:-1].rolling(period).agg().iloc[-1] is
defined). -/
def rollingAggLast (agg : ℚ → ℚ → ℚ) (xs : List ℚ) (period : ℕ) : ℚ :=
  ((List.range (period - 1)).map (fun k => xs.getD (xs.length - 1 - (k + 1)) 0)).foldl
    agg (xs.getD (xs.length - 1) 0)

/-- BreakoutStrategy.generate_signal on the close column. -/
def breakoutAnalyze (lookback : ℕ) (closes : List ℚ) : TradeSignal :=
  if closes.length < lookback + 2 then
    { signal := 0, confidence := 0,
      reason := "Not enough data (need " ++ toString (lookback + 2) ++ " candles)",
      price := (closes.getLast?).getD 0 }
  else
    let currentPrice := (closes.getLast?).getD 0
    let prior := closes.dropLast
    let highChannel := rollingAggLast max prior lookback
    let lowChannel := rollingAggLast min prior lookback
    if highChannel < currentPrice then
      { signal := 1,
        confidence := min (0.6 + (currentPrice - highChannel) / highChannel * 10) 0.9,
        reason := "Breakout above " ++ toString lookback ++ "-day high (" ++
          toString highChannel ++ ")",
        price := currentPrice }
    else if currentPrice < lowChannel then
      { signal := -1,
        confidence := min (0.6 + (lowChannel - currentPrice) / lowChannel * 10) 0.9,
        reason := "Breakdown below " ++ toString lookback ++ "-day low (" ++
          toString lowChannel ++ ")",
        price := currentPrice }
    else
      { signal := 0, confidence := 0.3,
        reason := "Within channel (position: " ++
          toString ((currentPrice - lowChannel) / (highChannel - lowChannel)) ++ ")",
        price := currentPrice }

/-- get_strategy("breakout") = BreakoutStrategy(lookback=30). -/
def getStrategyBreakout : List ℚ → TradeSignal := breakoutAnalyze 30

/-- C7 counterexample: the registry strategy "sma" (SMAStrategy with RSI
filter, periods 20/50), evaluated on a 2-bar history — far below the 51 bars
its indicators need — returns SHORT with confidence 0.6, not NEUTRAL with
confidence 0.0: the NaN indicator cells make every comparison False, which
lands in the Downtrend branch. -/
theorem sma_insufficient_history_cex :
    ([(100:ℚ), 100].length < 51)
    ∧ (getStrategySma [100, 100]).signal = -1
    ∧ (getStrategySma [100, 100]).confidence = 0.6 := by
  refine ⟨by decide, rfl, rfl⟩

/-- C7 amended: the Breakout registry strategies do return NEUTRAL with
confidence 0.0 and a shortfall rationale on every insufficient history; the
policy does not hold of every registry strategy, since get_strategy("sma")
violates it (see the counterexample). -/
theorem breakout_insufficient_history_neutral (lookback : ℕ) (closes : List ℚ)
    (h : closes.length < lookback + 2) :
    (breakoutAnalyze lookback closes).signal = 0
    ∧ (breakoutAnalyze lookback closes).confidence = 0
    ∧ (breakoutAnalyze lookback closes).reason =
        "Not enough data (need " ++ toString (lookback + 2) ++ " candles)" := by
  unfold breakoutAnalyze
  rw [if_pos h]
  exact ⟨rfl, rfl, rfl⟩

theorem breakout_insufficient_history_neutral_witness :
    ([(100:ℚ)].length < 30 + 2)
    ∧ (breakoutAnalyze 30 [100]).signal = 0
    ∧ (breakoutAnalyze 30 [100]).confidence = 0 :=
  ⟨by decide, (breakout_insufficient_history_neutral 30 [100] (by decide)).1,
    (breakout_insufficient_history_neutral 30 [100] (by decide)).2.1⟩

/-! Helper lemmas for the RSI claims. -/

lemma deltaAt_flat {n : ℕ} (c : ℚ) {j : ℕ} (h1 : 1 ≤ j) (h2 : j < n) :
    deltaAt (List.replicate n c) j = some 0 := by
  unfold deltaAt seriesGet
  rw [if_neg (by omega)]
  rw [List.length_replicate]
  rw [if_pos h2, if_pos (by omega : j - 1 < n)]
  rw [getD_replicate_of_lt c 0 h2, getD_replicate_of_lt c 0 (by omega : j - 1 < n)]
  simp

/-- Demonstration input for the RSI boundary case: the strictly rising close
series 0, 1, ..., 15. -/
def rampList : List ℚ := List.map (fun k : ℕ => (k : ℚ)) (List.range 16)

lemma deltaAt_ramp {j : ℕ} (h1 : 1 ≤ j) (h2 : j < 16) :
    deltaAt rampList j = some 1 := by
  unfold deltaAt seriesGet rampList
  rw [if_neg (by omega)]
  rw [List.length_map, List.length_range]
  rw [if_pos h2, if_pos (by omega : j - 1 < 16)]
  rw [getD_map_range _ _ h2, getD_map_range _ _ (by omega : j - 1 < 16)]
  show some ((j : ℚ) - ((j - 1 : ℕ) : ℚ)) = some 1
  congr 1
  rw [Nat.cast_sub h1]
  ring

lemma rollingMeanOpt_const (f : ℕ → Option ℚ) (c : ℚ) (period i : ℕ)
    (hp : 0 < period) (hpi : period ≤ i)
    (hf : ∀ j, 1 ≤ j → j ≤ i → f j = some c) :
    rollingMeanOpt f period i = some c := by
  have hall : ∀ k, k < period → f (i - k) = some c := by
    intro k hk
    exact hf (i - k) (by omega) (by omega)
  have hguard : period ≤ i + 1
      ∧ ((List.range period).map (fun k => f (i - k))).all Option.isSome = true := by
    refine ⟨by omega, List.all_eq_true.mpr ?_⟩
    intro v hv
    rcases List.mem_map.mp hv with ⟨k, hk, rfl⟩
    rw [hall k (List.mem_range.mp hk)]
    rfl
  unfold rollingMeanOpt
  rw [if_pos hguard]
  congr 1
  have hmap : (List.range period).map (fun k => (f (i - k)).getD 0) =
      List.replicate period c := by
    apply List.eq_replicate_iff.mpr
    constructor
    · rw [List.length_map, List.length_range]
    · intro b hb
      rcases List.mem_map.mp hb with ⟨k, hk, rfl⟩
      rw [hall k (List.mem_range.mp hk)]
      rfl
  rw [hmap, List.sum_replicate, nsmul_eq_mul,
    mul_div_cancel_left₀ c (by positivity : (period : ℚ) ≠ 0)]

lemma rollingMeanOpt_nonneg (f : ℕ → Option ℚ)
    (hf : ∀ j v, f j = some v → 0 ≤ v) (period i : ℕ) (m : ℚ)
    (h : rollingMeanOpt f period i = some m) : 0 ≤ m := by
  unfold rollingMeanOpt at h
  split at h
  · have hm : m = ((List.range period).map (fun k => (f (i - k)).getD 0)).sum / (period : ℚ) :=
      (Option.some_inj.mp h).symm
    rw [hm]
    apply div_nonneg _ (Nat.cast_nonneg period)
    apply List.sum_nonneg
    intro x hx
    rcases List.mem_map.mp hx with ⟨k, _, rfl⟩
    cases hfk : f (i - k) with
    | none => simp
    | some v => simpa using hf (i - k) v hfk
  · exact absurd h (by simp)

lemma rsiAt_eq (closes : List ℚ) (period i : ℕ) (g l : ℚ)
    (hG : rsiGainAvg closes period i = some g) (hL : rsiLossAvg closes period i = some l) :
    rsiAt closes period i =
      if 0 < l then some (100 - 100 / (1 + g / l))
      else if 0 < g then some 100 else none := by
  unfold rsiAt
  rw [hG, hL]

lemma rsiAt_none_left (closes : List ℚ) (period i : ℕ)
    (hG : rsiGainAvg closes period i = none) : rsiAt closes period i = none := by
  unfold rsiAt
  rw [hG]

lemma rsiAt_none_right (closes : List ℚ) (period i : ℕ) (g : ℚ)
    (hG : rsiGainAvg closes period i = some g) (hL : rsiLossAvg closes period i = none) :
    rsiAt closes period i = none := by
  unfold rsiAt
  rw [hG, hL]

lemma gainAt_of_delta_some (xs : List ℚ) (i : ℕ) (d : ℚ) (hi : i < xs.length)
    (hd : deltaAt xs i = some d) : gainAt xs i = some (if 0 < d then d else 0) := by
  unfold gainAt
  rw [if_pos hi, hd]

lemma lossAt_of_delta_some (xs : List ℚ) (i : ℕ) (d : ℚ) (hi : i < xs.length)
    (hd : deltaAt xs i = some d) : lossAt xs i = some (if d < 0 then -d else 0) := by
  unfold lossAt
  rw [if_pos hi, hd]

lemma gainAt_nonneg (xs : List ℚ) : ∀ j v, gainAt xs j = some v → 0 ≤ v := by
  intro j v h
  unfold gainAt at h
  split at h
  · cases hd : deltaAt xs j with
    | some d =>
      rw [hd] at h
      have hv : (if 0 < d then d else 0) = v := Option.some_inj.mp h
      rw [← hv]
      split
      · next h0 => exact le_of_lt h0
      · exact le_refl 0
    | none =>
      rw [hd] at h
      have hv : (0:ℚ) = v := Option.some_inj.mp h
      rw [← hv]
  · exact absurd h (by simp)

lemma lossAt_nonneg (xs : List ℚ) : ∀ j v, lossAt xs j = some v → 0 ≤ v := by
  intro j v h
  unfold lossAt at h
  split at h
  · cases hd : deltaAt xs j with
    | some d =>
      rw [hd] at h
      have hv : (if d < 0 then -d else 0) = v := Option.some_inj.mp h
      rw [← hv]
      split
      · next h0 => linarith
      · exact le_refl 0
    | none =>
      rw [hd] at h
      have hv : (0:ℚ) = v := Option.some_inj.mp h
      rw [← hv]
  · exact absurd h (by simp)

/-- C9 counterexample: on a flat 15-price series the 14-period rolling loss
average at the last row is exactly 0 (the window covers the 14 genuine zero
changes at rows 1..14), yet the RSI cell is NaN (undefined), not the claimed
boundary value 100: gain/loss is the IEEE 0/0 = NaN, which 100 - 100/(1+rs)
propagates. -/
theorem rsi_zero_loss_flat_window_cex :
    rsiLossAvg (List.replicate 15 (100:ℚ)) 14 14 = some 0
    ∧ rsiAt (List.replicate 15 (100:ℚ)) 14 14 = none := by
  have hloss : rsiLossAvg (List.replicate 15 (100:ℚ)) 14 14 = some 0 := by
    unfold rsiLossAvg
    apply rollingMeanOpt_const _ 0 14 14 (by omega) (by omega)
    intro j h1 h2
    rw [lossAt_of_delta_some _ _ 0 (by rw [List.length_replicate]; omega)
      (deltaAt_flat 100 h1 (by omega))]
    norm_num
  have hgain : rsiGainAvg (List.replicate 15 (100:ℚ)) 14 14 = some 0 := by
    unfold rsiGainAvg
    apply rollingMeanOpt_const _ 0 14 14 (by omega) (by omega)
    intro j h1 h2
    rw [gainAt_of_delta_some _ _ 0 (by rw [List.length_replicate]; omega)
      (deltaAt_flat 100 h1 (by omega))]
    norm_num
  refine ⟨hloss, ?_⟩
  rw [rsiAt_eq _ _ _ 0 0 hgain hloss]
  norm_num

/-- C9 amended: an RSI cell is undefined (the NaN sentinel, not 0) until
window observations exist (rolling min_periods equals the window, and the
row-0 diff NaN has already been coerced to 0 by the where()); wherever the
cell is defined it lies in [0, 100]; and a zero loss average yields the
boundary value 100 exactly when the gain average is positive — when gain and
loss averages are both zero (flat window) the cell is NaN, not 100. -/
theorem rsi_bounded_boundary (closes : List ℚ) (period i : ℕ) :
    (i + 1 < period → rsiAt closes period i = none)
    ∧ (∀ x, rsiAt closes period i = some x → 0 ≤ x ∧ x ≤ 100)
    ∧ (rsiLossAvg closes period i = some 0 → ∀ g, rsiGainAvg closes period i = some g →
        0 < g → rsiAt closes period i = some 100) := by
  refine ⟨?_, ?_, ?_⟩
  · intro hip
    have hG : rsiGainAvg closes period i = none := by
      unfold rsiGainAvg rollingMeanOpt
      rw [if_neg]
      rintro ⟨hle, _⟩
      omega
    exact rsiAt_none_left closes period i hG
  · intro x hx
    cases hG : rsiGainAvg closes period i with
    | none =>
      rw [rsiAt_none_left closes period i hG] at hx
      exact absurd hx (by simp)
    | some g =>
      cases hL : rsiLossAvg closes period i with
      | none =>
        rw [rsiAt_none_right closes period i g hG hL] at hx
        exact absurd hx (by simp)
      | some l =>
        rw [rsiAt_eq closes period i g l hG hL] at hx
        have hg : 0 ≤ g := rollingMeanOpt_nonneg _ (gainAt_nonneg closes) period i g hG
        have hl : 0 ≤ l := rollingMeanOpt_nonneg _ (lossAt_nonneg closes) period i l hL
        split_ifs at hx with h1 h2
        · have hxe : x = 100 - 100 / (1 + g / l) := (Option.some_inj.mp hx).symm
          have hrs : 0 ≤ g / l := div_nonneg hg hl
          have hpos : (0:ℚ) < 1 + g / l := by linarith
          have hdivpos : (0:ℚ) < 100 / (1 + g / l) := by positivity
          have hdivle : 100 / (1 + g / l) ≤ 100 := by
            rw [div_le_iff₀ hpos]
            nlinarith
          constructor
          · rw [hxe]; linarith
          · rw [hxe]; linarith
        · have hxe : x = 100 := (Option.some_inj.mp hx).symm
          rw [hxe]
          norm_num
  · intro hL g hG hgpos
    rw [rsiAt_eq closes period i g 0 hG hL, if_neg (lt_irrefl (0:ℚ)), if_pos hgpos]

theorem rsi_bounded_boundary_witness :
    rsiLossAvg rampList 14 15 = some 0
    ∧ rsiGainAvg rampList 14 15 = some 1
    ∧ rsiAt rampList 14 15 = some 100 := by
  have hlen : rampList.length = 16 := by
    unfold rampList
    rw [List.length_map, List.length_range]
  have hloss : rsiLossAvg rampList 14 15 = some 0 := by
    unfold rsiLossAvg
    apply rollingMeanOpt_const _ 0 14 15 (by omega) (by omega)
    intro j h1 h2
    rw [lossAt_of_delta_some _ _ 1 (by rw [hlen]; omega) (deltaAt_ramp h1 (by omega))]
    norm_num
  have hgain : rsiGainAvg rampList 14 15 = some 1 := by
    unfold rsiGainAvg
    apply rollingMeanOpt_const _ 1 14 15 (by omega) (by omega)
    intro j h1 h2
    rw [gainAt_of_delta_some _ _ 1 (by rw [hlen]; omega) (deltaAt_ramp h1 (by omega))]
    norm_num
  exact ⟨hloss, hgain,
    (rsi_bounded_boundary rampList 14 15).2.2 hloss 1 hgain (by norm_num)⟩
